import Mathlib

/-!
Shallow embedding of the on-call compensation calculator (`src/src/App.tsx`).
Dates are modelled as plain year/month/day triples (months 0-indexed as in
JavaScript); all money and hour quantities are exact rationals, matching the
real-number arithmetic of the source with no internal rounding.
-/

namespace Oncall

/-- A calendar date, compared only by calendar identity (year, 0-indexed month, day). -/
structure CDate where
  y : Nat
  m : Nat
  d : Nat
deriving DecidableEq, Repr

/-- Gregorian leap-year rule, as realised by JavaScript `Date` normalization. -/
def isLeapYear (y : Nat) : Bool :=
  (y % 4 == 0 && y % 100 != 0) || y % 400 == 0

/-- Number of days in the given (0-indexed) month of the given year. -/
def daysInMonth (y m : Nat) : Nat :=
  if m == 1 then (if isLeapYear y then 29 else 28)
  else if m == 3 || m == 5 || m == 8 || m == 10 then 30
  else 31

/-- Days in the proleptic Gregorian calendar strictly before January 1 of year `y`. -/
def daysBeforeYear (y : Nat) : Nat :=
  365 * y + (y + 3) / 4 - (y + 99) / 100 + (y + 399) / 400

/-- Days of year `y` strictly before the first day of (0-indexed) month `m`. -/
def daysBeforeMonth (y m : Nat) : Nat :=
  ((List.range m).map (daysInMonth y)).sum

/-- Linear day number of a date (0 = January 1 of year 0). -/
def toDayNumber (dt : CDate) : Nat :=
  daysBeforeYear dt.y + daysBeforeMonth dt.y dt.m + (dt.d - 1)

/-- JavaScript `Date.prototype.getDay`: 0 = Sunday, ..., 6 = Saturday. -/
def getDay (dt : CDate) : Nat :=
  (toDayNumber dt + 6) % 7

/-- date-fns `isWeekend`: the day of week is Sunday or Saturday. -/
def isWeekend (dt : CDate) : Bool :=
  getDay dt == 0 || getDay dt == 6

/-- date-fns `isSameDay` on calendar dates. -/
def isSameDay (a b : CDate) : Bool :=
  a.y == b.y && a.m == b.m && a.d == b.d

/-- JavaScript `Date.prototype.setDate` applied to a valid date, for a requested
day-of-month `n` that stays within one month of rollover (the only uses in the
source are `getDate() - 2` and `getDate() + 1`, so `n ∈ [-1, 32]`). -/
def setDate (dt : CDate) (n : Int) : CDate :=
  if n < 1 then
    if dt.m = 0 then ⟨dt.y - 1, 11, (31 + n).toNat⟩
    else ⟨dt.y, dt.m - 1, ((daysInMonth dt.y (dt.m - 1) : Int) + n).toNat⟩
  else if (daysInMonth dt.y dt.m : Int) < n then
    if dt.m = 11 then ⟨dt.y + 1, 0, (n - 31).toNat⟩
    else ⟨dt.y, dt.m + 1, (n - (daysInMonth dt.y dt.m : Int)).toNat⟩
  else ⟨dt.y, dt.m, n.toNat⟩

/-- The 12-step anonymous (Meeus/Jones/Butcher) computation from
`getEasterSunday`, up to the shared quantity `h + l - 7*m + 114` from which the
source derives both the month and the day (every truncated subtraction below is
provably non-truncating, so `Nat` arithmetic agrees with the integers of the source). -/
def easterValue (year : Nat) : Nat :=
  let a := year % 19
  let b := year / 100
  let c := year % 100
  let d := b / 4
  let e := b % 4
  let f := (b + 8) / 25
  let g := (b - f + 1) / 3
  let h := (19 * a + b - d - g + 15) % 30
  let i := c / 4
  let k := c % 4
  let l := (32 + 2 * e + 2 * i - h - k) % 7
  let m := (a + 11 * h + 22 * l) / 451
  h + l - 7 * m + 114

/-- `getEasterSunday`: `new Date(year, Math.floor(value/31) - 1, (value % 31) + 1)`. -/
def getEasterSunday (year : Nat) : CDate :=
  ⟨year, easterValue year / 31 - 1, easterValue year % 31 + 1⟩

/-- The 11 fixed Czech holidays from `isCzechHoliday`, as (day, month) pairs. -/
def fixedHolidays : List (Nat × Nat) :=
  [(1, 0), (1, 4), (8, 4), (5, 6), (6, 6), (28, 8), (28, 9), (17, 10), (24, 11), (25, 11), (26, 11)]

/-- Good Friday: `goodFriday.setDate(easterSunday.getDate() - 2)`. -/
def goodFridayOf (year : Nat) : CDate :=
  let es := getEasterSunday year
  setDate es ((es.d : Int) - 2)

/-- Easter Monday: `easterMonday.setDate(easterSunday.getDate() + 1)`. -/
def easterMondayOf (year : Nat) : CDate :=
  let es := getEasterSunday year
  setDate es ((es.d : Int) + 1)

/-- `isCzechHoliday`: fixed-date table lookup, then the two Easter-relative days. -/
def isCzechHoliday (date : CDate) : Bool :=
  let d := date.d
  let m := date.m
  let y := date.y
  if fixedHolidays.any (fun p => p.1 == d && p.2 == m) then true
  else
    if isSameDay date (goodFridayOf y) then true
    else
      if isSameDay date (easterMondayOf y) then true
      else false

/-- `calculateStandardMonthlyHours`: every day of the month containing the date,
via date-fns `eachDayOfInterval(startOfMonth, endOfMonth)`. -/
def eachDayOfMonth (y m : Nat) : List CDate :=
  (List.range (daysInMonth y m)).map (fun i => ⟨y, m, i + 1⟩)

/-- `calculateStandardMonthlyHours`: non-weekend days of the month times 8. -/
def calculateStandardMonthlyHours (date : CDate) : Nat :=
  ((eachDayOfMonth date.y date.m).filter (fun x => !(isWeekend x))).length * 8

/-- A rate triple `{onCall, otNormal, otHoliday}`. -/
structure Rates where
  onCall : ℚ
  otNormal : ℚ
  otHoliday : ℚ
deriving DecidableEq, Repr

/-- Profile-based rate resolution from the `rates` memo: the profile string is
`devops`, `other` or `custom` in the source. -/
def rates (profile : String) (customRates : Rates) : Rates :=
  if profile == "custom" then customRates
  else if profile == "devops" then ⟨0.2, 0.5, 1.5⟩
  else ⟨0.1, 0.5, 1.5⟩

/-- `state.monthlyHoursOverride || standardMonthlyHours`: JavaScript `||` falls
through both on `null` (modelled as `none`) and on the falsy number `0`. -/
def effectiveMonthlyHours (monthlyHoursOverride : Option ℚ) (standardMonthlyHours : ℚ) : ℚ :=
  match monthlyHoursOverride with
  | none => standardMonthlyHours
  | some v => if v == 0 then standardMonthlyHours else v

/-- `effectiveMonthlyHours > 0 ? monthlySalary / effectiveMonthlyHours : 0`. -/
def hourlyWage (monthlySalary effectiveHours : ℚ) : ℚ :=
  if effectiveHours > 0 then monthlySalary / effectiveHours else 0

/-- A shift assignment `{date, type}`; the tag is a runtime string
(`full`, `start`, `end` or `split` in the TypeScript annotation). -/
structure SelectedDay where
  date : CDate
  type : String
deriving DecidableEq, Repr

/-- A work-log entry `{id, date, hours, isHolidayOverride}`. -/
structure WorkLog where
  id : String
  date : CDate
  hours : ℚ
  isHolidayOverride : Bool
deriving DecidableEq, Repr

/-- The result object returned by the `calculation` memo. -/
structure CalcResult where
  paidStandbyHours : ℚ
  totalWorkNormal : ℚ
  totalWorkHoliday : ℚ
  onCallFee : ℚ
  overtimeNormalPay : ℚ
  overtimeHolidayPay : ℚ
  totalExtra : ℚ
  hourlyWage : ℚ
deriving DecidableEq, Repr

/-- Standby hours contributed by one assignment: the variant dispatch from the
`selectedOnCallDates.forEach` body (checks `start`, then `end`, then `split`;
anything else falls through to the Full-shift rule). -/
def standbyHoursOf (item : SelectedDay) : ℚ :=
  let isHoliday := isCzechHoliday item.date
  let isWe := isWeekend item.date
  if item.type == "start" then (if isHoliday || isWe then 15 else 7)
  else if item.type == "end" then 9
  else if item.type == "split" then 16
  else if isHoliday || isWe then 24 else 16

/-- The `calculation` memo: standby attribution, work-log bucketing,
standby/overtime reconciliation and the monetary rollup. -/
def calculation (selectedOnCallDates : List SelectedDay) (workLogs : List WorkLog)
    (hourlyWage : ℚ) (rates : Rates) : CalcResult :=
  let totalStandbyHours := (selectedOnCallDates.map standbyHoursOf).sum
  let totalWorkHoliday :=
    ((workLogs.filter (fun log => isCzechHoliday log.date || log.isHolidayOverride)).map
      WorkLog.hours).sum
  let totalWorkNormal :=
    ((workLogs.filter (fun log => !(isCzechHoliday log.date || log.isHolidayOverride))).map
      WorkLog.hours).sum
  let totalWorkDuration := (workLogs.map WorkLog.hours).sum
  let paidStandbyHours := max 0 (totalStandbyHours - totalWorkDuration)
  let onCallFee := paidStandbyHours * hourlyWage * rates.onCall
  let overtimeNormalPay := totalWorkNormal * hourlyWage * (1 + rates.otNormal)
  let overtimeHolidayPay := totalWorkHoliday * hourlyWage * (1 + rates.otHoliday)
  let totalExtra := onCallFee + overtimeNormalPay + overtimeHolidayPay
  ⟨paidStandbyHours, totalWorkNormal, totalWorkHoliday, onCallFee,
    overtimeNormalPay, overtimeHolidayPay, totalExtra, hourlyWage⟩

/-! Lemmas about the Easter computation and the holiday resolver. -/

theorem easterValue_bounds (y : Nat) : 107 ≤ easterValue y ∧ easterValue y ≤ 149 := by
  simp only [easterValue]
  omega

theorem daysInMonth_march (y : Nat) : daysInMonth y 2 = 31 := rfl

theorem daysInMonth_april (y : Nat) : daysInMonth y 3 = 30 := rfl

theorem setDate_inside (y m d : Nat) (n : Int) (h1 : 1 ≤ n) (h2 : n ≤ (daysInMonth y m : Int)) :
    setDate ⟨y, m, d⟩ n = ⟨y, m, n.toNat⟩ := by
  unfold setDate
  dsimp only
  split_ifs <;> first | rfl | omega

theorem setDate_prevMonth (y m d : Nat) (n : Int) (hm : m ≠ 0) (h1 : n < 1) :
    setDate ⟨y, m, d⟩ n = ⟨y, m - 1, ((daysInMonth y (m - 1) : Int) + n).toNat⟩ := by
  unfold setDate
  dsimp only
  split_ifs <;> first | rfl | omega | tauto

theorem setDate_nextMonth (y m d : Nat) (n : Int) (hm : m ≠ 11)
    (h2 : (daysInMonth y m : Int) < n) :
    setDate ⟨y, m, d⟩ n = ⟨y, m + 1, (n - (daysInMonth y m : Int)).toNat⟩ := by
  unfold setDate
  dsimp only
  split_ifs <;> first | rfl | omega | tauto

theorem goodFridayOf_eq (y a b c : Nat) (h : getEasterSunday y = ⟨a, b, c⟩) :
    goodFridayOf y = setDate ⟨a, b, c⟩ ((c : Int) - 2) := by
  unfold goodFridayOf
  rw [h]

theorem easterMondayOf_eq (y a b c : Nat) (h : getEasterSunday y = ⟨a, b, c⟩) :
    easterMondayOf y = setDate ⟨a, b, c⟩ ((c : Int) + 1) := by
  unfold easterMondayOf
  rw [h]

/-- Position of Easter Sunday, Good Friday and Easter Monday for any year, split
on the value `V = easterValue y` (March when `V ≤ 123`, April otherwise). -/
theorem easter_position (y : Nat) :
    (107 ≤ easterValue y ∧ easterValue y ≤ 122
        ∧ getEasterSunday y = ⟨y, 2, easterValue y - 92⟩
        ∧ goodFridayOf y = ⟨y, 2, easterValue y - 94⟩
        ∧ easterMondayOf y = ⟨y, 2, easterValue y - 91⟩)
    ∨ (easterValue y = 123
        ∧ getEasterSunday y = ⟨y, 2, 31⟩
        ∧ goodFridayOf y = ⟨y, 2, 29⟩
        ∧ easterMondayOf y = ⟨y, 3, 1⟩)
    ∨ (124 ≤ easterValue y ∧ easterValue y ≤ 125
        ∧ getEasterSunday y = ⟨y, 3, easterValue y - 123⟩
        ∧ goodFridayOf y = ⟨y, 2, easterValue y - 94⟩
        ∧ easterMondayOf y = ⟨y, 3, easterValue y - 122⟩)
    ∨ (126 ≤ easterValue y ∧ easterValue y ≤ 149
        ∧ getEasterSunday y = ⟨y, 3, easterValue y - 123⟩
        ∧ goodFridayOf y = ⟨y, 3, easterValue y - 125⟩
        ∧ easterMondayOf y = ⟨y, 3, easterValue y - 122⟩) := by
  obtain ⟨hlo, hhi⟩ := easterValue_bounds y
  have hes : getEasterSunday y = ⟨y, easterValue y / 31 - 1, easterValue y % 31 + 1⟩ := rfl
  rcases le_or_lt (easterValue y) 123 with hm | hm
  · -- March: (easterValue y) ∈ [107, 123], month 2, day (easterValue y) - 92
    have hes2 : getEasterSunday y = ⟨y, 2, (easterValue y) - 92⟩ := by
      rw [hes]
      simp only [CDate.mk.injEq, true_and, and_true]
      omega
    have hgf : goodFridayOf y = ⟨y, 2, (easterValue y) - 94⟩ := by
      rw [goodFridayOf_eq y y 2 ((easterValue y) - 92) hes2,
        setDate_inside y 2 ((easterValue y) - 92) _ (by omega) (by rw [daysInMonth_march]; omega)]
      simp only [CDate.mk.injEq, true_and, and_true]
      omega
    rcases le_or_lt (easterValue y) 122 with h2 | h2
    · left
      refine ⟨hlo, h2, hes2, hgf, ?_⟩
      rw [easterMondayOf_eq y y 2 ((easterValue y) - 92) hes2,
        setDate_inside y 2 ((easterValue y) - 92) _ (by omega) (by rw [daysInMonth_march]; omega)]
      simp only [CDate.mk.injEq, true_and, and_true]
      omega
    · right; left
      have h123 : (easterValue y) = 123 := by omega
      refine ⟨h123, by rw [hes2]; simp only [CDate.mk.injEq, true_and, and_true]; omega,
        by rw [hgf]; simp only [CDate.mk.injEq, true_and, and_true]; omega, ?_⟩
      rw [easterMondayOf_eq y y 2 ((easterValue y) - 92) hes2,
        setDate_nextMonth y 2 ((easterValue y) - 92) _ (by omega) (by rw [daysInMonth_march]; omega)]
      rw [daysInMonth_march]
      simp only [CDate.mk.injEq, true_and, and_true]
      omega
  · -- April: (easterValue y) ∈ [124, 149], month 3, day (easterValue y) - 123
    have hes2 : getEasterSunday y = ⟨y, 3, (easterValue y) - 123⟩ := by
      rw [hes]
      simp only [CDate.mk.injEq, true_and, and_true]
      omega
    have hem : easterMondayOf y = ⟨y, 3, (easterValue y) - 122⟩ := by
      rw [easterMondayOf_eq y y 3 ((easterValue y) - 123) hes2,
        setDate_inside y 3 ((easterValue y) - 123) _ (by omega) (by rw [daysInMonth_april]; omega)]
      simp only [CDate.mk.injEq, true_and, and_true]
      omega
    rcases le_or_lt (easterValue y) 125 with h2 | h2
    · right; right; left
      refine ⟨by omega, h2, hes2, ?_, hem⟩
      rw [goodFridayOf_eq y y 3 ((easterValue y) - 123) hes2,
        setDate_prevMonth y 3 ((easterValue y) - 123) _ (by omega) (by omega)]
      rw [show (3 : Nat) - 1 = 2 from rfl, daysInMonth_march]
      simp only [CDate.mk.injEq, true_and, and_true]
      omega
    · right; right; right
      refine ⟨by omega, hhi, hes2, ?_, hem⟩
      rw [goodFridayOf_eq y y 3 ((easterValue y) - 123) hes2,
        setDate_inside y 3 ((easterValue y) - 123) _ (by omega) (by rw [daysInMonth_april]; omega)]
      simp only [CDate.mk.injEq, true_and, and_true]
      omega

/-- The fixed holidays as a finite set of (month, day) pairs. -/
def fixedHolidayPairs : Finset (Nat × Nat) :=
  (fixedHolidays.map (fun p => (p.2, p.1))).toFinset

theorem fixedHolidays_any_iff (d m : Nat) :
    (fixedHolidays.any (fun p => p.1 == d && p.2 == m) = true) ↔ (m, d) ∈ fixedHolidayPairs := by
  simp only [fixedHolidayPairs, List.any_eq_true, Bool.and_eq_true, beq_iff_eq,
    List.mem_toFinset, List.mem_map, Prod.mk.injEq]
  constructor
  · rintro ⟨p, hp, h1, h2⟩
    exact ⟨p, hp, by omega, by omega⟩
  · rintro ⟨p, hp, h1, h2⟩
    exact ⟨p, hp, by omega, by omega⟩

theorem isSameDay_iff (a b : CDate) : isSameDay a b = true ↔ a = b := by
  cases a
  cases b
  simp [isSameDay, CDate.mk.injEq, and_assoc]

/-- Unfolding of `isCzechHoliday` into the three ways a date can be a holiday. -/
theorem isCzechHoliday_iff (dt : CDate) :
    isCzechHoliday dt = true ↔
      ((dt.m, dt.d) ∈ fixedHolidayPairs ∨ dt = goodFridayOf dt.y ∨ dt = easterMondayOf dt.y) := by
  have hfix := fixedHolidays_any_iff dt.d dt.m
  have hgf := isSameDay_iff dt (goodFridayOf dt.y)
  have hem := isSameDay_iff dt (easterMondayOf dt.y)
  unfold isCzechHoliday
  dsimp only
  split_ifs with h1 h2 h3
  · exact iff_of_true rfl (Or.inl (hfix.mp h1))
  · exact iff_of_true rfl (Or.inr (Or.inl (hgf.mp h2)))
  · exact iff_of_true rfl (Or.inr (Or.inr (hem.mp h3)))
  · refine iff_of_false (by simp) ?_
    rintro (hf | he | he)
    · exact h1 (hfix.mpr hf)
    · exact h2 (hgf.mpr he)
    · exact h3 (hem.mpr he)

theorem daysInMonth_ge (y m : Nat) : 28 ≤ daysInMonth y m := by
  unfold daysInMonth
  split_ifs <;> norm_num

theorem fixed_valid (y : Nat) :
    ∀ p ∈ fixedHolidayPairs, p.1 < 12 ∧ p.2 < 32 ∧ 1 ≤ p.2 ∧ p.2 ≤ daysInMonth y p.1 := by
  intro p hp
  have h28 := daysInMonth_ge y p.1
  have hb : ∀ q ∈ fixedHolidayPairs, q.1 < 12 ∧ q.2 < 32 ∧ 1 ≤ q.2 ∧ q.2 ≤ 28 := by decide
  have := hb p hp
  omega

theorem fixed_months : ∀ p ∈ fixedHolidayPairs, p.1 ≠ 2 ∧ p.1 ≠ 3 := by
  decide

/-- The set of (month, day) pairs of year `y` that are valid calendar dates and
are reported as holidays by `isCzechHoliday`. -/
def yearHolidayPairs (y : Nat) : Finset (Nat × Nat) :=
  (Finset.range 12 ×ˢ Finset.range 32).filter
    (fun p => 1 ≤ p.2 ∧ p.2 ≤ daysInMonth y p.1 ∧ isCzechHoliday ⟨y, p.1, p.2⟩ = true)

/-- The holiday pairs of a year are the 11 fixed dates plus Good Friday and
Easter Monday, provided the two movable days are valid dates of the year. -/
theorem yearHolidayPairs_eq_of (y gm gd mm md : Nat)
    (hgf : goodFridayOf y = ⟨y, gm, gd⟩) (hem : easterMondayOf y = ⟨y, mm, md⟩)
    (hgm : gm < 12) (hgd1 : 1 ≤ gd) (hgd2 : gd ≤ daysInMonth y gm) (hgd3 : gd < 32)
    (hmm : mm < 12) (hmd1 : 1 ≤ md) (hmd2 : md ≤ daysInMonth y mm) (hmd3 : md < 32) :
    yearHolidayPairs y = fixedHolidayPairs ∪ {(gm, gd), (mm, md)} := by
  ext p
  obtain ⟨m, d⟩ := p
  have hiff := isCzechHoliday_iff ⟨y, m, d⟩
  dsimp only at hiff
  simp only [yearHolidayPairs, Finset.mem_filter, Finset.mem_product, Finset.mem_range,
    Finset.mem_union, Finset.mem_insert, Finset.mem_singleton, Prod.mk.injEq]
  constructor
  · rintro ⟨⟨hm12, hd32⟩, hd1, hdm, hcz⟩
    rcases hiff.mp hcz with hf | he | he
    · exact Or.inl hf
    · rw [hgf, CDate.mk.injEq] at he
      exact Or.inr (Or.inl ⟨he.2.1, he.2.2⟩)
    · rw [hem, CDate.mk.injEq] at he
      exact Or.inr (Or.inr ⟨he.2.1, he.2.2⟩)
  · rintro (hf | ⟨rfl, rfl⟩ | ⟨rfl, rfl⟩)
    · obtain ⟨h1, h2, h3, h4⟩ := fixed_valid y _ hf
      exact ⟨⟨h1, h2⟩, h3, h4, hiff.mpr (Or.inl hf)⟩
    · exact ⟨⟨hgm, hgd3⟩, hgd1, hgd2, hiff.mpr (Or.inr (Or.inl hgf.symm))⟩
    · exact ⟨⟨hmm, hmd3⟩, hmd1, hmd2, hiff.mpr (Or.inr (Or.inr hem.symm))⟩

theorem card_fixed_union_pair (gm gd mm md : Nat)
    (hg : gm = 2 ∨ gm = 3) (hm : mm = 2 ∨ mm = 3)
    (hne : ¬ (gm = mm ∧ gd = md)) :
    (fixedHolidayPairs ∪ {(gm, gd), (mm, md)}).card = 13 := by
  rw [Finset.card_union_of_disjoint]
  · rw [show fixedHolidayPairs.card = 11 by decide,
      Finset.card_insert_of_not_mem (by simp [Prod.mk.injEq]; omega),
      Finset.card_singleton]
  · rw [Finset.disjoint_left]
    intro a ha hmem
    have hnot := fixed_months a ha
    simp only [Finset.mem_insert, Finset.mem_singleton] at hmem
    rcases hmem with rfl | rfl <;> dsimp at hnot <;> omega

/-- For every year, the set of holiday (month, day) pairs is the 11 fixed dates
together with Good Friday and Easter Monday. -/
theorem yearHolidayPairs_eq (y : Nat) :
    yearHolidayPairs y = fixedHolidayPairs ∪
      {((goodFridayOf y).m, (goodFridayOf y).d), ((easterMondayOf y).m, (easterMondayOf y).d)} := by
  rcases easter_position y with ⟨h1, h2, hes, hgf, hem⟩ | ⟨h1, hes, hgf, hem⟩ |
    ⟨h1, h2, hes, hgf, hem⟩ | ⟨h1, h2, hes, hgf, hem⟩ <;>
    rw [hgf, hem] <;> dsimp only
  · exact yearHolidayPairs_eq_of y 2 (easterValue y - 94) 2 (easterValue y - 91) hgf hem
      (by omega) (by omega) (by rw [daysInMonth_march]; omega) (by omega)
      (by omega) (by omega) (by rw [daysInMonth_march]; omega) (by omega)
  · exact yearHolidayPairs_eq_of y 2 29 3 1 hgf hem
      (by omega) (by omega) (by rw [daysInMonth_march]; omega) (by omega)
      (by omega) (by omega) (by rw [daysInMonth_april]; omega) (by omega)
  · exact yearHolidayPairs_eq_of y 2 (easterValue y - 94) 3 (easterValue y - 122) hgf hem
      (by omega) (by omega) (by rw [daysInMonth_march]; omega) (by omega)
      (by omega) (by omega) (by rw [daysInMonth_april]; omega) (by omega)
  · exact yearHolidayPairs_eq_of y 3 (easterValue y - 125) 3 (easterValue y - 122) hgf hem
      (by omega) (by omega) (by rw [daysInMonth_april]; omega) (by omega)
      (by omega) (by omega) (by rw [daysInMonth_april]; omega) (by omega)

/-- For every year, `isCzechHoliday` accepts exactly 13 valid dates. -/
theorem yearHolidayPairs_card (y : Nat) : (yearHolidayPairs y).card = 13 := by
  rw [yearHolidayPairs_eq y]
  rcases easter_position y with ⟨h1, h2, hes, hgf, hem⟩ | ⟨h1, hes, hgf, hem⟩ |
    ⟨h1, h2, hes, hgf, hem⟩ | ⟨h1, h2, hes, hgf, hem⟩ <;>
    rw [hgf, hem] <;> dsimp only <;>
    apply card_fixed_union_pair <;> omega

/-- A March or April date distinct from Good Friday and Easter Monday is not a holiday. -/
theorem not_holiday_of (y m d : Nat) (hm23 : m = 2 ∨ m = 3)
    (hgf : ¬ ((⟨y, m, d⟩ : CDate) = goodFridayOf y))
    (hem : ¬ ((⟨y, m, d⟩ : CDate) = easterMondayOf y)) :
    isCzechHoliday ⟨y, m, d⟩ = false := by
  cases hcz : isCzechHoliday ⟨y, m, d⟩
  · rfl
  · exfalso
    have hiff := isCzechHoliday_iff ⟨y, m, d⟩
    dsimp only at hiff
    rcases hiff.mp hcz with hf | he | he
    · have hnot := fixed_months _ hf
      dsimp at hnot
      omega
    · exact hgf he
    · exact hem he

/-- Easter Sunday itself is never reported as a holiday. -/
theorem easterSunday_not_holiday (y : Nat) :
    isCzechHoliday (getEasterSunday y) = false := by
  rcases easter_position y with ⟨h1, h2, hes, hgf, hem⟩ | ⟨h1, hes, hgf, hem⟩ |
    ⟨h1, h2, hes, hgf, hem⟩ | ⟨h1, h2, hes, hgf, hem⟩ <;> rw [hes]
  · exact not_holiday_of y 2 (easterValue y - 92) (Or.inl rfl)
      (by rw [hgf, CDate.mk.injEq]; omega) (by rw [hem, CDate.mk.injEq]; omega)
  · exact not_holiday_of y 2 31 (Or.inl rfl)
      (by rw [hgf, CDate.mk.injEq]; omega) (by rw [hem, CDate.mk.injEq]; omega)
  · exact not_holiday_of y 3 (easterValue y - 123) (Or.inr rfl)
      (by rw [hgf, CDate.mk.injEq]; omega) (by rw [hem, CDate.mk.injEq]; omega)
  · exact not_holiday_of y 3 (easterValue y - 123) (Or.inr rfl)
      (by rw [hgf, CDate.mk.injEq]; omega) (by rw [hem, CDate.mk.injEq]; omega)

/-- The number of days of the month (of year `y`, 0-indexed month `m`) that are
not Saturday or Sunday, as the claim counts them. -/
def weekdayCount (y m : Nat) : Nat :=
  ((Finset.range (daysInMonth y m)).filter
    (fun i => ¬ (getDay ⟨y, m, i + 1⟩ = 6 ∨ getDay ⟨y, m, i + 1⟩ = 0))).card

theorem length_filter_map {α β : Type} (f : α → β) (p : β → Bool) (l : List α) :
    ((l.map f).filter p).length = (l.filter (fun a => p (f a))).length := by
  induction l with
  | nil => rfl
  | cons a t ih =>
    simp only [List.map_cons, List.filter_cons]
    cases p (f a) <;> simp [ih]

theorem finset_filter_range_card (p : Nat → Prop) [DecidablePred p] (n : Nat) :
    ((Finset.range n).filter p).card = ((List.range n).filter (fun a => decide (p a))).length := by
  induction n with
  | zero => rfl
  | succ n ih =>
    rw [Finset.range_succ, List.range_succ, List.filter_append]
    by_cases hp : p n
    · rw [Finset.filter_insert, if_pos hp, Finset.card_insert_of_not_mem (by simp), ih]
      simp [List.filter, hp]
    · rw [Finset.filter_insert, if_neg hp, ih]
      simp [List.filter, hp]

theorem not_weekend_iff (dt : CDate) :
    (!(isWeekend dt)) = decide (¬ (getDay dt = 6 ∨ getDay dt = 0)) := by
  unfold isWeekend
  by_cases h0 : getDay dt = 0 <;> by_cases h6 : getDay dt = 6 <;> simp [h0, h6]

/-- `calculateStandardMonthlyHours` equals 8 times the weekday count of its month. -/
theorem calculateStandardMonthlyHours_eq (date : CDate) :
    calculateStandardMonthlyHours date = 8 * weekdayCount date.y date.m := by
  unfold calculateStandardMonthlyHours weekdayCount eachDayOfMonth
  rw [length_filter_map, finset_filter_range_card, Nat.mul_comm]
  congr 1
  refine congrArg List.length (List.filter_congr ?_)
  intro i hi
  exact not_weekend_iff ⟨date.y, date.m, i + 1⟩

/-! Supporting lemmas for the claim theorems. -/

theorem standbyHoursOf_nonneg (item : SelectedDay) : 0 ≤ standbyHoursOf item := by
  unfold standbyHoursOf
  dsimp only
  split_ifs <;> norm_num

/-! Claim theorems. -/

/-- C1 counterexample: a monthly-hours override of 0 is present and non-null,
yet the effective monthly hours are the standard hours (160), not the override. -/
theorem effectiveMonthlyHours_zero_counterexample :
    effectiveMonthlyHours (some 0) 160 = 160 ∧ (160 : ℚ) ≠ 0 := by
  constructor
  · simp [effectiveMonthlyHours]
  · norm_num

/-- C1 (amended): the effective monthly hours equal the override exactly when it
is present, non-null and non-zero; both a null override and an override of 0
fall back to the Standard-Hours Calculator result (JavaScript `||` treats the
number 0 as falsy). -/
theorem effectiveMonthlyHours_spec (std v : ℚ) (hv : v ≠ 0) :
    effectiveMonthlyHours (some v) std = v
    ∧ effectiveMonthlyHours none std = std
    ∧ effectiveMonthlyHours (some 0) std = std := by
  refine ⟨?_, rfl, ?_⟩
  · simp [effectiveMonthlyHours, hv]
  · simp [effectiveMonthlyHours]

theorem effectiveMonthlyHours_spec_witness :
    (150 : ℚ) ≠ 0 ∧ effectiveMonthlyHours (some 150) 176 = 150 :=
  ⟨by norm_num, (effectiveMonthlyHours_spec 176 150 (by norm_num)).1⟩

/-- C2 counterexample: an assignment with the unrecognized variant tag "junior"
on a plain weekday (December 3, 2024) is silently attributed 16 standby hours,
and a CompensationResult is still constructed from it. -/
theorem unknown_variant_counterexample :
    standbyHoursOf ⟨⟨2024, 11, 3⟩, "junior"⟩ = 16
    ∧ (calculation [⟨⟨2024, 11, 3⟩, "junior"⟩] [] 100 ⟨0.2, 0.5, 1.5⟩).paidStandbyHours = 16 := by
  have h1 : isCzechHoliday ⟨2024, 11, 3⟩ = false := by decide
  have h2 : isWeekend ⟨2024, 11, 3⟩ = false := by decide
  constructor
  · simp [standbyHoursOf, h1, h2]
  · simp [calculation, standbyHoursOf, h1, h2]

/-- C2 (amended): the core never signals a MalformedInput condition; an
assignment whose variant tag is none of start, end or split is treated exactly
like a Full shift (24h on a weekend or holiday, 16h otherwise) and a
CompensationResult is always constructed. -/
theorem unknown_variant_as_full (item : SelectedDay)
    (hs : item.type ≠ "start") (he : item.type ≠ "end") (hp : item.type ≠ "split") :
    standbyHoursOf item =
      (if isCzechHoliday item.date || isWeekend item.date then 24 else 16) := by
  simp [standbyHoursOf, hs, he, hp]

theorem unknown_variant_as_full_witness :
    standbyHoursOf ⟨⟨2024, 11, 3⟩, "junior"⟩ =
      (if isCzechHoliday (⟨2024, 11, 3⟩ : CDate) || isWeekend ⟨2024, 11, 3⟩ then 24 else 16) :=
  unknown_variant_as_full ⟨⟨2024, 11, 3⟩, "junior"⟩ (by decide) (by decide) (by decide)

/-- C3: standby attribution per variant and day type — Full 24h on weekend or
holiday and 16h otherwise, Start 15h and 7h, End always 9h, Split always 16h —
and the total standby exposure is the uncapped sum over all assignments. -/
theorem shift_attribution_spec :
    (∀ item : SelectedDay, item.type = "full" →
      standbyHoursOf item = (if isCzechHoliday item.date || isWeekend item.date then 24 else 16))
    ∧ (∀ item : SelectedDay, item.type = "start" →
      standbyHoursOf item = (if isCzechHoliday item.date || isWeekend item.date then 15 else 7))
    ∧ (∀ item : SelectedDay, item.type = "end" → standbyHoursOf item = 9)
    ∧ (∀ item : SelectedDay, item.type = "split" → standbyHoursOf item = 16)
    ∧ (∀ (dates : List SelectedDay) (w : ℚ) (r : Rates),
      (calculation dates [] w r).paidStandbyHours = (dates.map standbyHoursOf).sum) := by
  refine ⟨?_, ?_, ?_, ?_, ?_⟩
  · intro item h
    simp [standbyHoursOf, h]
  · intro item h
    simp [standbyHoursOf, h]
  · intro item h
    simp [standbyHoursOf, h]
  · intro item h
    simp [standbyHoursOf, h]
  · intro dates w r
    have hn : 0 ≤ (dates.map standbyHoursOf).sum := by
      apply List.sum_nonneg
      intro x hx
      obtain ⟨it, hit, rfl⟩ := List.mem_map.mp hx
      exact standbyHoursOf_nonneg it
    simp only [calculation, List.map_nil, List.sum_nil, List.filter_nil, sub_zero]
    exact max_eq_right hn

theorem shift_attribution_spec_witness :
    (⟨⟨2024, 11, 7⟩, "full"⟩ : SelectedDay).type = "full"
    ∧ standbyHoursOf ⟨⟨2024, 11, 7⟩, "full"⟩ = 24
    ∧ standbyHoursOf ⟨⟨2024, 11, 3⟩, "full"⟩ = 16
    ∧ standbyHoursOf ⟨⟨2024, 11, 4⟩, "start"⟩ = 7
    ∧ standbyHoursOf ⟨⟨2024, 11, 4⟩, "end"⟩ = 9
    ∧ standbyHoursOf ⟨⟨2024, 11, 4⟩, "split"⟩ = 16 := by
  have hsat : isCzechHoliday ⟨2024, 11, 7⟩ = false ∧ isWeekend ⟨2024, 11, 7⟩ = true := by decide
  have htue : isCzechHoliday ⟨2024, 11, 3⟩ = false ∧ isWeekend ⟨2024, 11, 3⟩ = false := by decide
  have hwed : isCzechHoliday ⟨2024, 11, 4⟩ = false ∧ isWeekend ⟨2024, 11, 4⟩ = false := by decide
  refine ⟨rfl, ?_, ?_, ?_, ?_, ?_⟩
  · rw [shift_attribution_spec.1 ⟨⟨2024, 11, 7⟩, "full"⟩ rfl]
    simp [hsat.1, hsat.2]
  · rw [shift_attribution_spec.1 ⟨⟨2024, 11, 3⟩, "full"⟩ rfl]
    simp [htue.1, htue.2]
  · rw [shift_attribution_spec.2.1 ⟨⟨2024, 11, 4⟩, "start"⟩ rfl]
    simp [hwed.1, hwed.2]
  · exact shift_attribution_spec.2.2.1 ⟨⟨2024, 11, 4⟩, "end"⟩ rfl
  · exact shift_attribution_spec.2.2.2.1 ⟨⟨2024, 11, 4⟩, "split"⟩ rfl

/-- C4: payable standby is max(0, total standby − total worked hours), a single
global subtraction over the whole period, never negative; 40h of standby with
10h worked in total yields 30h, and with 50h worked yields 0h. -/
theorem reconciliation_spec :
    (∀ (dates : List SelectedDay) (logs : List WorkLog) (w : ℚ) (r : Rates),
      (calculation dates logs w r).paidStandbyHours
          = max 0 ((dates.map standbyHoursOf).sum - (logs.map WorkLog.hours).sum)
      ∧ 0 ≤ (calculation dates logs w r).paidStandbyHours)
    ∧ (calculation [⟨⟨2024, 11, 7⟩, "full"⟩, ⟨⟨2024, 11, 3⟩, "full"⟩]
        [⟨"a", ⟨2024, 11, 5⟩, 10, false⟩] 1 ⟨1, 1, 1⟩).paidStandbyHours = 30
    ∧ (calculation [⟨⟨2024, 11, 7⟩, "full"⟩, ⟨⟨2024, 11, 3⟩, "full"⟩]
        [⟨"a", ⟨2024, 11, 5⟩, 50, false⟩] 1 ⟨1, 1, 1⟩).paidStandbyHours = 0 := by
  have h1 : isCzechHoliday ⟨2024, 11, 3⟩ = false := by decide
  have h2 : isWeekend ⟨2024, 11, 3⟩ = false := by decide
  have h3 : isCzechHoliday ⟨2024, 11, 7⟩ = false := by decide
  have h4 : isWeekend ⟨2024, 11, 7⟩ = true := by decide
  have h5 : isCzechHoliday ⟨2024, 11, 5⟩ = false := by decide
  refine ⟨fun dates logs w r => ⟨rfl, le_max_left 0 _⟩, ?_, ?_⟩
  · simp [calculation, standbyHoursOf, h1, h2, h3, h4, h5]
    norm_num
  · simp [calculation, standbyHoursOf, h1, h2, h3, h4, h5]
    norm_num

/-- C6: each work-log entry is classified as holiday iff
`isCzechHoliday(date) OR holidayOverride` (union semantics), and an entry whose
date is auto-detected as a holiday lands in the holiday bucket for either value
of the override flag, so the override can never downgrade a holiday. -/
theorem worklog_union_spec :
    (∀ (dates : List SelectedDay) (logs : List WorkLog) (w : ℚ) (r : Rates) (log : WorkLog),
      (calculation dates (log :: logs) w r).totalWorkHoliday
        = (if isCzechHoliday log.date || log.isHolidayOverride then log.hours else 0)
          + (calculation dates logs w r).totalWorkHoliday
      ∧ (calculation dates (log :: logs) w r).totalWorkNormal
        = (if isCzechHoliday log.date || log.isHolidayOverride then 0 else log.hours)
          + (calculation dates logs w r).totalWorkNormal)
    ∧ (∀ (dates : List SelectedDay) (w : ℚ) (r : Rates) (id : String) (dt : CDate)
        (hrs : ℚ) (b : Bool), isCzechHoliday dt = true →
      (calculation dates [⟨id, dt, hrs, b⟩] w r).totalWorkHoliday = hrs
      ∧ (calculation dates [⟨id, dt, hrs, b⟩] w r).totalWorkNormal = 0) := by
  constructor
  · intro dates logs w r log
    cases hA : isCzechHoliday log.date <;> cases hB : log.isHolidayOverride <;>
      constructor <;> simp [calculation, List.filter_cons, hA, hB]
  · intro dates w r id dt hrs b hhol
    constructor <;> simp [calculation, List.filter_cons, hhol]

theorem worklog_union_spec_witness :
    isCzechHoliday ⟨2024, 2, 29⟩ = true
    ∧ (calculation [] [⟨"w", ⟨2024, 2, 29⟩, 5, false⟩] 1 ⟨1, 1, 1⟩).totalWorkHoliday = 5
    ∧ (calculation [] [⟨"w", ⟨2024, 2, 29⟩, 5, false⟩] 1 ⟨1, 1, 1⟩).totalWorkNormal = 0 :=
  ⟨by decide,
    (worklog_union_spec.2 [] 1 ⟨1, 1, 1⟩ "w" ⟨2024, 2, 29⟩ 5 false (by decide)).1,
    (worklog_union_spec.2 [] 1 ⟨1, 1, 1⟩ "w" ⟨2024, 2, 29⟩ 5 false (by decide)).2⟩

/-- C5: for every calendar year, `isCzechHoliday` accepts exactly 13 valid
dates — the 11 fixed dates together with Good Friday and Easter Monday from the
Meeus/Jones/Butcher computation; March 29, 2024 and April 1, 2024 are holidays
and Easter Sunday itself is never flagged. -/
theorem holiday_resolver_spec :
    ∀ y : Nat,
      (yearHolidayPairs y).card = 13
      ∧ yearHolidayPairs y = fixedHolidayPairs ∪
          {((goodFridayOf y).m, (goodFridayOf y).d), ((easterMondayOf y).m, (easterMondayOf y).d)}
      ∧ isCzechHoliday ⟨2024, 2, 29⟩ = true
      ∧ isCzechHoliday ⟨2024, 3, 1⟩ = true
      ∧ isCzechHoliday (getEasterSunday y) = false :=
  fun y => ⟨yearHolidayPairs_card y, yearHolidayPairs_eq y, by decide, by decide,
    easterSunday_not_holiday y⟩

/-- C7: standard monthly hours are 8 times the count of non-Saturday/Sunday days
of the month — a month with exactly 22 such weekdays gives 176 — and weekday
holidays are not excluded: May 2024 contains the holidays May 1 and May 8, both
Wednesdays, and still yields 8 × 23 = 184. -/
theorem standard_hours_spec (date : CDate) (h22 : weekdayCount date.y date.m = 22) :
    calculateStandardMonthlyHours date = 176
    ∧ (∀ dt : CDate, calculateStandardMonthlyHours dt = 8 * weekdayCount dt.y dt.m)
    ∧ calculateStandardMonthlyHours ⟨2024, 4, 15⟩ = 184
    ∧ isCzechHoliday ⟨2024, 4, 1⟩ = true
    ∧ isCzechHoliday ⟨2024, 4, 8⟩ = true
    ∧ getDay ⟨2024, 4, 1⟩ = 3 ∧ getDay ⟨2024, 4, 8⟩ = 3 := by
  refine ⟨?_, calculateStandardMonthlyHours_eq, by decide, by decide, by decide, by decide,
    by decide⟩
  rw [calculateStandardMonthlyHours_eq, h22]

theorem standard_hours_spec_witness :
    weekdayCount 2024 3 = 22 ∧ calculateStandardMonthlyHours ⟨2024, 3, 10⟩ = 176 :=
  ⟨by decide, (standard_hours_spec ⟨2024, 3, 10⟩ (by decide)).1⟩

/-- C8: the engine computes standbyFee, overtime pays and totalBonus by the
stated formulas, and the end-to-end scenario — salary 80000, 176 effective
hours, DevOpsInfra rates (0.2/0.5/1.5), one Full weekday shift, no work logs —
gives hourlyWage = 5000/11 ≈ 454.55, payable standby 16h, standbyFee =
totalBonus = 16000/11 ≈ 1454.5. -/
theorem compensation_engine_spec :
    (∀ (dates : List SelectedDay) (logs : List WorkLog) (w : ℚ) (r : Rates),
      (calculation dates logs w r).onCallFee
          = (calculation dates logs w r).paidStandbyHours * w * r.onCall
      ∧ (calculation dates logs w r).overtimeNormalPay
          = (calculation dates logs w r).totalWorkNormal * w * (1 + r.otNormal)
      ∧ (calculation dates logs w r).overtimeHolidayPay
          = (calculation dates logs w r).totalWorkHoliday * w * (1 + r.otHoliday)
      ∧ (calculation dates logs w r).totalExtra
          = (calculation dates logs w r).onCallFee
            + (calculation dates logs w r).overtimeNormalPay
            + (calculation dates logs w r).overtimeHolidayPay)
    ∧ (∀ c : Rates, rates "devops" c = ⟨0.2, 0.5, 1.5⟩)
    ∧ hourlyWage 80000 176 = 5000 / 11
    ∧ (45454 : ℚ) / 100 < 5000 / 11 ∧ (5000 : ℚ) / 11 < 45455 / 100
    ∧ (∀ c : Rates,
        (calculation [⟨⟨2024, 11, 3⟩, "full"⟩] [] (hourlyWage 80000 176)
          (rates "devops" c)).paidStandbyHours = 16
        ∧ (calculation [⟨⟨2024, 11, 3⟩, "full"⟩] [] (hourlyWage 80000 176)
            (rates "devops" c)).onCallFee = 16000 / 11
        ∧ (calculation [⟨⟨2024, 11, 3⟩, "full"⟩] [] (hourlyWage 80000 176)
            (rates "devops" c)).totalExtra = 16000 / 11)
    ∧ (14545 : ℚ) / 10 ≤ 16000 / 11 ∧ (16000 : ℚ) / 11 < 14546 / 10 := by
  have h1 : isCzechHoliday ⟨2024, 11, 3⟩ = false := by decide
  have h2 : isWeekend ⟨2024, 11, 3⟩ = false := by decide
  refine ⟨fun dates logs w r => ⟨rfl, rfl, rfl, rfl⟩, fun c => rfl,
    by norm_num [hourlyWage], by norm_num, by norm_num, ?_, by norm_num, by norm_num⟩
  intro c
  refine ⟨?_, ?_, ?_⟩ <;>
  · simp [calculation, standbyHoursOf, h1, h2, rates, hourlyWage]
    try norm_num

/-- C9: the wage division is guarded — for any salary, a non-positive effective
monthly hours value yields an hourly wage of 0 instead of an error. -/
theorem hourlyWage_guard (salary effH : ℚ) (h : effH ≤ 0) : hourlyWage salary effH = 0 := by
  unfold hourlyWage
  rw [if_neg (not_lt.mpr h)]

theorem hourlyWage_guard_witness : (0 : ℚ) ≤ 0 ∧ hourlyWage 80000 0 = 0 :=
  ⟨le_refl 0, hourlyWage_guard 80000 0 (le_refl 0)⟩

/-- C10: the OtherEmployee profile resolves to the fixed triple
(0.1, 0.5, 1.5), and for every non-Custom profile the custom rates input has no
effect on the resolved rates. -/
theorem rates_profile_spec (p : String) (c c2 : Rates) (hp : p ≠ "custom") :
    rates p c = rates p c2
    ∧ rates "other" c = ⟨0.1, 0.5, 1.5⟩
    ∧ rates "devops" c = ⟨0.2, 0.5, 1.5⟩ := by
  refine ⟨?_, rfl, rfl⟩
  simp [rates, hp]

theorem rates_profile_spec_witness :
    "other" ≠ "custom" ∧ rates "other" ⟨9, 9, 9⟩ = rates "other" ⟨8, 8, 8⟩ :=
  ⟨by decide, (rates_profile_spec "other" ⟨9, 9, 9⟩ ⟨8, 8, 8⟩ (by decide)).1⟩

end Oncall
